import Mathlib

/-!
# Verification of the cliamp audio pipeline core

A shallow embedding, in Lean 4, of the DSP core of the `cliamp` terminal
music player: the visualization tap ring buffer (`Tap`), the biquad peaking
equalizer stage (`biquad`), the player control surface (`Play`/`Stop`/
`Seek`/`Position`/`SetEQBand`), and the FFT spectrum analyzer
(`Visualizer.Analyze`).  Go `float64` arithmetic is modelled over `ℝ`;
Go integer arithmetic (sample counts, `time.Duration` nanoseconds) over `ℤ`
with explicit truncating division where the Go code divides.
Each definition mirrors one Go function of the repository; external
collaborators (the beep sample-rate conversions, the go-dsp FFT) are
modelled from the specification, and are marked as such in their doc
comments.
-/

/-! ## VisualizationTap: the ring buffer (`player.Tap`)

`Tap.Stream` writes the mono downmix `(left+right)/2` of every frame at the
cursor and advances the cursor modulo the capacity; `Tap.Samples n` reads
the last `n` written samples in chronological order.  The Go methods take
the state as a receiver pointer; here the state is passed and returned
explicitly.  `Samples` performs no writes in the Go source, so its model is
a pure function of the state. -/

structure Tap where
  buf : ℕ → ℝ
  pos : ℕ
  size : ℕ

/-- `NewTap`: a zero-filled buffer of the given size with the cursor at 0. -/
def newTap (bufSize : ℕ) : Tap :=
  { buf := fun _ => 0, pos := 0, size := bufSize }

/-- One iteration of the loop body of `Tap.Stream`: write the downmix of one
frame at the cursor, then advance the cursor modulo the capacity. -/
def Tap.write (t : Tap) (m : ℝ) : Tap :=
  { t with buf := Function.update t.buf t.pos m, pos := (t.pos + 1) % t.size }

/-- `Tap.Stream` restricted to its effect on the tap state: fold the write
loop over the frames delivered by the upstream streamer.  The Go method
returns the frames unchanged (pass-through); only the ring state changes. -/
noncomputable def Tap.stream (t : Tap) (frames : List (ℝ × ℝ)) : Tap :=
  frames.foldl (fun s f => s.write ((f.1 + f.2) / 2)) t

/-- `Tap.Samples`: clamp `n` to the capacity, then read `n` entries starting
`n` slots behind the cursor, wrapping modulo the capacity.  The Go source
computes `start` as `(t.pos - n + t.size) % t.size` over machine integers;
with `n ≤ t.size` and `t.pos < t.size` that value is nonnegative and equals
`(t.pos + (t.size - n)) % t.size`, the form used here over `ℕ`. -/
def Tap.samples (t : Tap) (n : ℕ) : List ℝ :=
  let m := min n t.size
  let start := (t.pos + (t.size - m)) % t.size
  (List.range m).map (fun i => t.buf ((start + i) % t.size))

/-- The mono downmix recorded per frame by `Tap.Stream`. -/
noncomputable def downmix (f : ℝ × ℝ) : ℝ := (f.1 + f.2) / 2

theorem tap_samples_length (t : Tap) (n : ℕ) :
    (t.samples n).length = min n t.size := by
  simp [Tap.samples]

theorem tap_stream_append (t : Tap) (xs ys : List (ℝ × ℝ)) :
    t.stream (xs ++ ys) = (t.stream xs).stream ys := by
  simp [Tap.stream, List.foldl_append]

theorem tap_stream_size (t : Tap) (frames : List (ℝ × ℝ)) :
    (t.stream frames).size = t.size := by
  induction frames generalizing t with
  | nil => rfl
  | cons f fs ih => simpa [Tap.stream, Tap.write] using ih _

/-- The raw write loop: fold `Tap.write` over a list of mono samples.
`Tap.stream` is this loop precomposed with the downmix. -/
def writeAll (t : Tap) (ms : List ℝ) : Tap :=
  ms.foldl Tap.write t

theorem stream_eq_writeAll (t : Tap) (frames : List (ℝ × ℝ)) :
    t.stream frames = writeAll t (frames.map downmix) := by
  simp [Tap.stream, writeAll, downmix, List.foldl_map]

theorem writeAll_size (t : Tap) (ms : List ℝ) :
    (writeAll t ms).size = t.size := by
  induction ms generalizing t with
  | nil => rfl
  | cons m ms ih => simpa [writeAll, Tap.write] using ih (t.write m)

theorem writeAll_pos (t : Tap) (ms : List ℝ) (hsz : 0 < t.size)
    (hpos : t.pos < t.size) :
    (writeAll t ms).pos = (t.pos + ms.length) % t.size := by
  induction ms generalizing t with
  | nil => simpa [writeAll] using (Nat.mod_eq_of_lt hpos).symm
  | cons m ms ih =>
    have hpos' : (t.write m).pos < t.size := by
      simpa [Tap.write] using Nat.mod_lt _ hsz
    have := ih (t.write m) (by simpa [Tap.write] using hsz) hpos'
    simp only [writeAll, List.foldl_cons, List.length_cons] at this ⊢
    rw [this]
    simp only [Tap.write]
    rw [Nat.mod_add_mod]
    congr 1
    omega

/-- Adding a nonzero offset smaller than the modulus moves a reduced
residue: the write loop never revisits a slot within one lap. -/
theorem add_mod_ne_self {size p k : ℕ} (hp : p < size) (hk0 : 0 < k)
    (hk : k < size) : (p + k) % size ≠ p := by
  rcases Nat.lt_or_ge (p + k) size with h | h
  · rw [Nat.mod_eq_of_lt h]
    omega
  · rw [Nat.mod_eq_sub_mod h, Nat.mod_eq_of_lt (by omega)]
    omega

/-- Slots that no iteration of the write loop addresses keep their prior
contents. -/
theorem writeAll_buf_untouched (ms : List ℝ) (t : Tap) (idx : ℕ)
    (hsz : 0 < t.size) (hpos : t.pos < t.size)
    (h : ∀ j < ms.length, (t.pos + j) % t.size ≠ idx) :
    (writeAll t ms).buf idx = t.buf idx := by
  induction ms generalizing t with
  | nil => rfl
  | cons m ms ih =>
    have hpos' : (t.write m).pos < t.size := by
      simpa [Tap.write] using Nat.mod_lt _ hsz
    have hstep : (writeAll (t.write m) ms).buf idx = (t.write m).buf idx := by
      refine ih (t.write m) (by simpa [Tap.write] using hsz) hpos' ?_
      intro j hj
      have hrw : ((t.pos + 1) % t.size + j) % t.size = (t.pos + (1 + j)) % t.size := by
        rw [Nat.mod_add_mod]
        congr 1
        omega
      simp only [Tap.write]
      rw [hrw]
      exact h (1 + j) (by simp only [List.length_cons]; omega)
    have h0 : t.pos ≠ idx := by
      have := h 0 (by simp)
      simpa [Nat.mod_eq_of_lt hpos] using this
    have hupd : (t.write m).buf idx = t.buf idx := by
      simp [Tap.write, Function.update_noteq (Ne.symm h0)]
    rw [show writeAll t (m :: ms) = writeAll (t.write m) ms from rfl, hstep, hupd]

/-- Ring characterization: among the writes of one `writeAll` run, a write
index `j` within the last `t.size` writes lands at slot
`(t.pos + j) % t.size` and is still there at the end of the run. -/
theorem writeAll_buf_last (ms : List ℝ) (t : Tap) (j : ℕ)
    (hsz : 0 < t.size) (hpos : t.pos < t.size) (hj : j < ms.length)
    (hlast : ms.length ≤ j + t.size) :
    (writeAll t ms).buf ((t.pos + j) % t.size) = ms.get ⟨j, hj⟩ := by
  induction ms generalizing t j with
  | nil => simp at hj
  | cons m ms ih =>
    have hsz' : 0 < (t.write m).size := by simpa [Tap.write] using hsz
    have hpos' : (t.write m).pos < (t.write m).size := by
      simpa [Tap.write] using Nat.mod_lt _ hsz
    cases j with
    | zero =>
      have hrest : ms.length < t.size := by
        simp only [List.length_cons] at hlast
        omega
      have huntouched :
          (writeAll (t.write m) ms).buf t.pos = (t.write m).buf t.pos := by
        refine writeAll_buf_untouched ms (t.write m) t.pos hsz' hpos' ?_
        intro j' hj'
        have hrw : ((t.pos + 1) % t.size + j') % t.size
            = (t.pos + (1 + j')) % t.size := by
          rw [Nat.mod_add_mod]
          congr 1
          omega
        simp only [Tap.write]
        rw [hrw]
        exact add_mod_ne_self hpos (by omega) (by omega)
      have hwrite : (t.write m).buf t.pos = m := by
        simp [Tap.write]
      have hidx : (t.pos + 0) % t.size = t.pos := by
        rw [Nat.add_zero, Nat.mod_eq_of_lt hpos]
      rw [show writeAll t (m :: ms) = writeAll (t.write m) ms from rfl, hidx,
        huntouched, hwrite]
      rfl
    | succ j' =>
      have hj'lt : j' < ms.length := by
        simp only [List.length_cons] at hj
        omega
      have hlast' : ms.length ≤ j' + t.size := by
        simp only [List.length_cons] at hlast
        omega
      have hrw : ((t.pos + 1) % t.size + j') % t.size
          = (t.pos + (j' + 1)) % t.size := by
        rw [Nat.mod_add_mod]
        congr 1
        omega
      have hih := ih (t.write m) j' hsz' hpos' hj'lt
        (by simpa [Tap.write] using hlast')
      simp only [Tap.write] at hih
      rw [hrw] at hih
      exact hih

/-- Content characterization of the tap: once at least `cap` frames have
been streamed into a fresh tap of capacity `cap`, a snapshot of `n ≤ cap`
samples is exactly the downmix of the last `n` frames, oldest first. -/
theorem tap_stream_samples_eq (cap : ℕ) (frames : List (ℝ × ℝ)) (n : ℕ)
    (hcap : 0 < cap) (hlen : cap ≤ frames.length) (hn : n ≤ cap) :
    ((newTap cap).stream frames).samples n
      = (frames.map downmix).drop (frames.length - n) := by
  rw [stream_eq_writeAll]
  set ms := frames.map downmix with hms
  set L := frames.length with hL
  have hmslen : ms.length = L := by simp [hms, hL]
  set T := writeAll (newTap cap) ms with hT
  have hTsize : T.size = cap := writeAll_size _ _
  have hTpos : T.pos = L % cap := by
    have := writeAll_pos (newTap cap) ms hcap (by simpa [newTap] using hcap)
    simpa [newTap, hmslen] using this
  apply List.ext_getElem
  · simp [Tap.samples, hTsize, Nat.min_eq_left hn, hmslen]
    omega
  · intro i h1 h2
    have hi : i < n := by
      simpa [Tap.samples, hTsize, Nat.min_eq_left hn] using h1
    have hjlt : L - n + i < ms.length := by
      rw [hmslen]
      omega
    have hidx : ((T.pos + (T.size - min n T.size)) % T.size + i) % T.size
        = (0 + (L - n + i)) % cap := by
      rw [hTsize, Nat.min_eq_left hn, hTpos, Nat.mod_add_mod, Nat.add_assoc,
        Nat.mod_add_mod]
      rw [show L + ((cap - n) + i) = (0 + (L - n + i)) + cap by omega]
      rw [Nat.add_mod_right]
    have hlast := writeAll_buf_last ms (newTap cap) (L - n + i)
      (by simpa [newTap] using hcap) (by simpa [newTap] using hcap) hjlt
      (by simp only [newTap, hmslen]; omega)
    have hL2 : (ms.drop (L - n)).length = n := by
      rw [List.length_drop, hmslen]
      omega
    calc (T.samples n)[i]
        = T.buf (((T.pos + (T.size - min n T.size)) % T.size + i) % T.size) := by
          simp [Tap.samples]
      _ = T.buf ((0 + (L - n + i)) % cap) := by rw [hidx]
      _ = ms.get ⟨L - n + i, hjlt⟩ := by
          have : ((newTap cap).pos + (L - n + i)) % (newTap cap).size
              = (0 + (L - n + i)) % cap := by simp [newTap]
          rw [← this]
          exact hlast
      _ = (ms.drop (L - n)).get ⟨i, by omega⟩ := by
          simp [List.get_eq_getElem, List.getElem_drop]

/-- C6: `Tap.Samples(n)` returns exactly `n` values for every `n ≤ capacity`
(without mutating the buffer — the model of `Samples` is a pure function of
the tap state because the Go method performs no writes), and once `capacity`
or more frames have been streamed into a fresh tap, the snapshot is exactly
the `(left+right)/2` downmix of the last `n` frames in chronological
(oldest-to-newest) order. -/
theorem claim_C6_tap_snapshot :
    (∀ (t : Tap) (n : ℕ), n ≤ t.size → (t.samples n).length = n) ∧
    (∀ (cap : ℕ) (frames : List (ℝ × ℝ)) (n : ℕ), 0 < cap →
      cap ≤ frames.length → n ≤ cap →
      ((newTap cap).stream frames).samples n
        = (frames.map downmix).drop (frames.length - n)) := by
  constructor
  · intro t n hn
    rw [tap_samples_length, Nat.min_eq_left hn]
  · intro cap frames n hcap hlen hn
    exact tap_stream_samples_eq cap frames n hcap hlen hn

/-- Witness for C6 at concrete inputs: a capacity-2 tap, three frames
streamed; the 2-sample snapshot is the downmix of the last 2 frames. -/
theorem claim_C6_witness :
    ((newTap 2).samples 2).length = 2 ∧
    ((newTap 2).stream [((0 : ℝ), (0 : ℝ)), (2, 4), (6, 2)]).samples 2
      = ([((0 : ℝ), (0 : ℝ)), (2, 4), (6, 2)].map downmix).drop 1 := by
  constructor
  · exact claim_C6_tap_snapshot.1 (newTap 2) 2 (by norm_num [newTap])
  · exact claim_C6_tap_snapshot.2 2 _ 2 (by norm_num) (by norm_num) (by norm_num)

/-- C10: for `n` greater than the capacity, `Tap.Samples` does not error and
does not return `n` values: it clamps `n` to the capacity, returning the
same snapshot as `Samples(capacity)` — the whole buffer in chronological
order — with exactly `capacity` values. -/
theorem claim_C10_samples_clamp (t : Tap) (n : ℕ) (h : t.size < n) :
    t.samples n = t.samples t.size ∧ (t.samples n).length = t.size := by
  constructor
  · unfold Tap.samples
    rw [Nat.min_eq_right (le_of_lt h), Nat.min_self]
  · rw [tap_samples_length, Nat.min_eq_right (le_of_lt h)]

/-- Witness for C10 at a concrete input: requesting 5 samples from a
capacity-2 tap returns the 2-sample snapshot. -/
theorem claim_C10_witness :
    (newTap 2).samples 5 = (newTap 2).samples 2 ∧
    ((newTap 2).samples 5).length = 2 :=
  claim_C10_samples_clamp (newTap 2) 5 (by norm_num [newTap])

/-! ## BiquadStage (`player.biquad`)

A second-order IIR peaking equalizer per the Audio EQ Cookbook.  The Go
struct reads its gain through a shared pointer into `Player.eqBands`; the
value that pointer read yields on a given `Stream` call is modelled as an
explicit `gain` argument.  `calcCoeffs` returns no value in Go; the model
additionally returns a boolean that is true exactly when the coefficients
were recomputed, as observational instrumentation for counting
computations. -/

structure Biquad where
  freq : ℝ
  q : ℝ
  sr : ℝ
  x1 : Fin 2 → ℝ
  x2 : Fin 2 → ℝ
  y1 : Fin 2 → ℝ
  y2 : Fin 2 → ℝ
  lastGain : ℝ
  b0 : ℝ
  b1 : ℝ
  b2 : ℝ
  a1 : ℝ
  a2 : ℝ
  inited : Bool

/-- `newBiquad`: Go zero-values for state, history and cache. -/
def newBiquad (freq q sr : ℝ) : Biquad :=
  { freq := freq, q := q, sr := sr,
    x1 := fun _ => 0, x2 := fun _ => 0, y1 := fun _ => 0, y2 := fun _ => 0,
    lastGain := 0, b0 := 0, b1 := 0, b2 := 0, a1 := 0, a2 := 0,
    inited := false }

/-- `biquad.calcCoeffs`: skip when the cache is valid (`inited` and the gain
equals `lastGain`); otherwise recompute the five normalized coefficients
from the peaking-EQ formulas and record the new gain. -/
noncomputable def Biquad.calcCoeffs (b : Biquad) (dB : ℝ) : Biquad × Bool :=
  if b.inited = true ∧ dB = b.lastGain then (b, false)
  else
    let a := Real.rpow 10 (dB / 40)
    let w0 := 2 * Real.pi * b.freq / b.sr
    let sinW0 := Real.sin w0
    let cosW0 := Real.cos w0
    let alpha := sinW0 / (2 * b.q)
    let nb0 := 1 + alpha * a
    let nb1 := -2 * cosW0
    let nb2 := 1 - alpha * a
    let na0 := 1 + alpha / a
    let na1 := -2 * cosW0
    let na2 := 1 - alpha / a
    ({ b with
        lastGain := dB
        inited := true
        b0 := nb0 / na0
        b1 := nb1 / na0
        b2 := nb2 / na0
        a1 := na1 / na0
        a2 := na2 / na0 }, true)

/-- One channel of the inner loop of `biquad.Stream`: the direct-form-I
recurrence followed by the history shift for that channel. -/
noncomputable def Biquad.processSample (b : Biquad) (ch : Fin 2) (x : ℝ) :
    ℝ × Biquad :=
  let y := b.b0 * x + b.b1 * b.x1 ch + b.b2 * b.x2 ch
    - b.a1 * b.y1 ch - b.a2 * b.y2 ch
  (y, { b with
        x2 := Function.update b.x2 ch (b.x1 ch)
        x1 := Function.update b.x1 ch x
        y2 := Function.update b.y2 ch (b.y1 ch)
        y1 := Function.update b.y1 ch y })

/-- The frame loop of `biquad.Stream`: channel 0 then channel 1 per frame,
threading the filter state. -/
noncomputable def Biquad.runFilter (b : Biquad) :
    List (ℝ × ℝ) → List (ℝ × ℝ) × Biquad
  | [] => ([], b)
  | f :: rest =>
    let r0 := b.processSample 0 f.1
    let r1 := r0.2.processSample 1 f.2
    let rr := r1.2.runFilter rest
    ((r0.1, r1.1) :: rr.1, rr.2)

/-- `biquad.Stream`: read the gain, bypass (frames and state untouched) when
it is within ±0.1 dB of zero, otherwise ensure coefficients and run the
recurrence.  The boolean is true when this call recomputed coefficients. -/
noncomputable def Biquad.stream (b : Biquad) (gain : ℝ)
    (frames : List (ℝ × ℝ)) : List (ℝ × ℝ) × Biquad × Bool :=
  if gain > -0.1 ∧ gain < 0.1 then (frames, b, false)
  else
    let c := b.calcCoeffs gain
    let r := c.1.runFilter frames
    (r.1, r.2, c.2)

/-- A sequence of `Stream` calls: each entry pairs the gain observed on that
call with the frames delivered; the second component accumulates how many
calls recomputed coefficients. -/
noncomputable def Biquad.streamSeq (b : Biquad) :
    List (ℝ × List (ℝ × ℝ)) → Biquad × ℕ
  | [] => (b, 0)
  | c :: rest =>
    let r := b.stream c.1 c.2
    let s := r.2.1.streamSeq rest
    (s.1, (if r.2.2 = true then 1 else 0) + s.2)

theorem stream_bypass (b : Biquad) (gain : ℝ) (frames : List (ℝ × ℝ))
    (h : gain > -0.1 ∧ gain < 0.1) :
    b.stream gain frames = (frames, b, false) := by
  unfold Biquad.stream
  rw [if_pos h]

theorem runFilter_lastGain (b : Biquad) (fs : List (ℝ × ℝ)) :
    (b.runFilter fs).2.lastGain = b.lastGain := by
  induction fs generalizing b with
  | nil => rfl
  | cons f fs ih =>
    simpa [Biquad.runFilter, Biquad.processSample] using ih _

theorem runFilter_inited (b : Biquad) (fs : List (ℝ × ℝ)) :
    (b.runFilter fs).2.inited = b.inited := by
  induction fs generalizing b with
  | nil => rfl
  | cons f fs ih =>
    simpa [Biquad.runFilter, Biquad.processSample] using ih _

theorem calcCoeffs_state (b : Biquad) (g : ℝ) :
    (b.calcCoeffs g).1.inited = true ∧ (b.calcCoeffs g).1.lastGain = g := by
  unfold Biquad.calcCoeffs
  by_cases h : b.inited = true ∧ g = b.lastGain
  · rw [if_pos h]
    exact ⟨h.1, h.2.symm⟩
  · rw [if_neg h]
    exact ⟨rfl, rfl⟩

theorem calcCoeffs_computed (b : Biquad) (g : ℝ) :
    (b.calcCoeffs g).2
      = if b.inited = true ∧ g = b.lastGain then false else true := by
  unfold Biquad.calcCoeffs
  by_cases h : b.inited = true ∧ g = b.lastGain
  · rw [if_pos h, if_pos h]
  · rw [if_neg h, if_neg h]

/-- State and instrumentation of a non-bypassed `Stream` call: afterwards
the cache is initialized at the observed gain, and a recomputation happened
iff the cache was not already valid for that gain. -/
theorem stream_state (b : Biquad) (g : ℝ) (fs : List (ℝ × ℝ))
    (h : ¬(g > -0.1 ∧ g < 0.1)) :
    (b.stream g fs).2.1.inited = true ∧ (b.stream g fs).2.1.lastGain = g ∧
    (b.stream g fs).2.2
      = if b.inited = true ∧ g = b.lastGain then false else true := by
  unfold Biquad.stream
  rw [if_neg h]
  refine ⟨?_, ?_, ?_⟩
  · rw [runFilter_inited]
    exact (calcCoeffs_state b g).1
  · rw [runFilter_lastGain]
    exact (calcCoeffs_state b g).2
  · exact calcCoeffs_computed b g

/-- C4: for every gain `dB` with `|dB| < 0.1` and every input frame list,
`biquad.Stream` is the identity: the samples pass through unmodified, the
filter recurrence is not run, the per-channel filter state (and the whole
stage state) is not updated, and no coefficient computation happens. -/
theorem claim_C4_bypass_identity (b : Biquad) (dB : ℝ)
    (frames : List (ℝ × ℝ)) (h : |dB| < 0.1) :
    b.stream dB frames = (frames, b, false) := by
  rw [abs_lt] at h
  exact stream_bypass b dB frames ⟨h.1, h.2⟩

/-- Witness for C4 at a concrete input: gain 0 on a fresh 70 Hz stage with
one frame. -/
theorem claim_C4_witness :
    (newBiquad 70 1.4 44100).stream 0 [(1, 2)]
      = ([((1 : ℝ), (2 : ℝ))], newBiquad 70 1.4 44100, false) :=
  claim_C4_bypass_identity (newBiquad 70 1.4 44100) 0 [(1, 2)] (by norm_num)

theorem streamSeq_replicate_bypass (n : ℕ) (b : Biquad) (g : ℝ)
    (fs : List (ℝ × ℝ)) (hb : g > -0.1 ∧ g < 0.1) :
    (b.streamSeq (List.replicate n (g, fs))).2 = 0 := by
  induction n generalizing b with
  | zero => rfl
  | succ n ih =>
    simp only [List.replicate_succ, Biquad.streamSeq, stream_bypass b g fs hb]
    simpa using ih b

theorem streamSeq_replicate_cached (n : ℕ) (b : Biquad) (g : ℝ)
    (fs : List (ℝ × ℝ)) (hi : b.inited = true) (hg : b.lastGain = g) :
    (b.streamSeq (List.replicate n (g, fs))).2 = 0 := by
  induction n generalizing b with
  | zero => rfl
  | succ n ih =>
    by_cases hb : g > -0.1 ∧ g < 0.1
    · simp only [List.replicate_succ, Biquad.streamSeq, stream_bypass b g fs hb]
      simpa using ih b hi hg
    · have hs := stream_state b g fs hb
      have hcomp : (b.stream g fs).2.2 = false := by
        rw [hs.2.2, if_pos ⟨hi, hg.symm⟩]
      simp only [List.replicate_succ, Biquad.streamSeq, hcomp]
      simpa using ih (b.stream g fs).2.1 hs.1 hs.2.1

/-- C5 (amended): a `Stream` call recomputes coefficients only when the
observed gain is outside the bypass window and differs from the last
computed gain (or none was computed yet); hence a run of calls at one
constant gain — e.g. 10,000 frames — triggers at most one coefficient
computation, regardless of how many frames are processed. -/
theorem claim_C5_constant_gain (b : Biquad) (g : ℝ) (fs : List (ℝ × ℝ))
    (n : ℕ) : (b.streamSeq (List.replicate n (g, fs))).2 ≤ 1 := by
  cases n with
  | zero => exact Nat.zero_le 1
  | succ n =>
    by_cases hb : g > -0.1 ∧ g < 0.1
    · rw [streamSeq_replicate_bypass (n + 1) b g fs hb]
      exact Nat.zero_le 1
    · have hs := stream_state b g fs hb
      simp only [List.replicate_succ, Biquad.streamSeq]
      rw [show ((b.stream g fs).2.1.streamSeq (List.replicate n (g, fs))).2 = 0
        from streamSeq_replicate_cached n _ g fs hs.1 hs.2.1]
      split
      · omega
      · omega

/-- The gain/frames schedule of the C5 counterexample: three calls, one
frame each, with gains 1 dB, 2 dB, 1 dB — two distinct gain values. -/
def cexCalls : List (ℝ × List (ℝ × ℝ)) :=
  [(1, [(0, 0)]), (2, [(0, 0)]), (1, [(0, 0)])]

/-- Counterexample to C5 as stated: on the schedule with gains 1, 2, 1 the
stage recomputes coefficients 3 times, but only 2 distinct gain values are
observed, so the computation count does not equal the number of distinct
gains. -/
theorem claim_C5_counterexample :
    ((newBiquad 70 1.4 44100).streamSeq cexCalls).2 = 3 ∧
    ((cexCalls.map Prod.fst).toFinset.card = 2) := by
  constructor
  · have hnb1 : ¬((1 : ℝ) > -0.1 ∧ (1 : ℝ) < 0.1) := by norm_num
    have hnb2 : ¬((2 : ℝ) > -0.1 ∧ (2 : ℝ) < 0.1) := by norm_num
    have s1 := stream_state (newBiquad 70 1.4 44100) 1 [(0, 0)] hnb1
    have c1 : ((newBiquad 70 1.4 44100).stream 1 [(0, 0)]).2.2 = true := by
      rw [s1.2.2, if_neg]
      intro hcontra
      exact Bool.false_ne_true hcontra.1
    have s2 := stream_state ((newBiquad 70 1.4 44100).stream 1 [(0, 0)]).2.1
      2 [(0, 0)] hnb2
    have c2 : (((newBiquad 70 1.4 44100).stream 1 [(0, 0)]).2.1.stream
        2 [(0, 0)]).2.2 = true := by
      rw [s2.2.2, if_neg]
      intro hcontra
      have := hcontra.2
      rw [s1.2.1] at this
      norm_num at this
    have s3 := stream_state (((newBiquad 70 1.4 44100).stream 1 [(0, 0)]).2.1.stream
      2 [(0, 0)]).2.1 1 [(0, 0)] hnb1
    have c3 : ((((newBiquad 70 1.4 44100).stream 1 [(0, 0)]).2.1.stream
        2 [(0, 0)]).2.1.stream 1 [(0, 0)]).2.2 = true := by
      rw [s3.2.2, if_neg]
      intro hcontra
      have := hcontra.2
      rw [s2.2.1] at this
      norm_num at this
    simp only [cexCalls, Biquad.streamSeq, c1, c2, c3]
    norm_num
  · simp only [cexCalls, List.map_cons, List.map_nil, List.toFinset_cons,
      List.toFinset_nil]
    rw [Finset.card_insert_of_mem (by simp),
      Finset.card_insert_of_not_mem (by norm_num),
      Finset.card_insert_of_not_mem (by simp)]
    simp

/-! ## Player control surface (`player.Player`)

`Play`, `Stop`, `Seek`, `Position`, `SetEQBand`, `EQBands`.  The Go methods
mutate the receiver under locks; the model passes the state explicitly (the
locks serialize control-plane calls, so each call sees one state).  File
and speaker handles are reduced to the facts the claims need: whether they
are held.  The mp3 streamer is reduced to its sample position and length,
which is all `Seek`/`Position`/`Duration` consume. -/

structure MP3Streamer where
  pos : ℤ
  len : ℤ
deriving DecidableEq

structure PlayerState where
  sr : ℤ
  streamer : Option MP3Streamer
  formatSR : ℤ
  fileOpen : Bool
  ctrl : Bool
  tap : Option Tap
  volume : ℝ
  eqBands : Fin 10 → ℝ
  playing : Bool
  paused : Bool
  trackDone : Bool

/-- `player.New`: a fresh player at the speaker sample rate; all other
fields are Go zero-values. -/
def newPlayer (sr : ℤ) : PlayerState :=
  { sr := sr
    streamer := none
    formatSR := 0
    fileOpen := false
    ctrl := false
    tap := none
    volume := 0
    eqBands := fun _ => 0
    playing := false
    paused := false
    trackDone := false }

/-- `Player.Stop`: close and drop the streamer and file, drop the ctrl and
tap stages, reset the flags.  (The speaker clear is an external effect.) -/
def PlayerState.stop (p : PlayerState) : PlayerState :=
  { p with
      streamer := none
      fileOpen := false
      ctrl := false
      tap := none
      playing := false
      paused := false
      trackDone := false }

inductive PlayError where
  | openErr
  | decodeErr
deriving DecidableEq

/-- A source handed to `Play`: whether `os.Open` succeeds and, when
`mp3.Decode` succeeds, the decoded `(format sample rate, stream length)`. -/
structure Source where
  openOk : Bool
  decoded : Option (ℤ × ℤ)

/-- `Player.Play`: stop the previous pipeline, then open and decode the
source; on failure return the error (the file, if opened, is closed again);
on success build the whole pipeline — streamer, EQ chain, volume stage, tap
(capacity 4096), ctrl — and mark the player playing.  The decoded streamer
starts at sample position 0. -/
def PlayerState.play (p : PlayerState) (src : Source) :
    PlayerState × Option PlayError :=
  let p1 := p.stop
  if src.openOk = false then (p1, some PlayError.openErr)
  else
    match src.decoded with
    | none => (p1, some PlayError.decodeErr)
    | some fmt =>
      ({ p1 with
          fileOpen := true
          streamer := some { pos := 0, len := fmt.2 }
          formatSR := fmt.1
          trackDone := false
          tap := some (newTap 4096)
          ctrl := true
          playing := true
          paused := false }, none)

/-- Modelled from the spec: `beep.SampleRate.D`, the external collaborator
conversion (not part of this repository) from a sample count `n` at rate
`sr` to a `time.Duration` in nanoseconds; Go integer division truncates
toward zero. -/
def srD (sr n : ℤ) : ℤ := Int.tdiv (n * 1000000000) sr

/-- Modelled from the spec: `beep.SampleRate.N`, the external collaborator
conversion (not part of this repository) from a `time.Duration` `d` in
nanoseconds to a sample count at rate `sr`; Go integer division truncates
toward zero. -/
def srN (sr d : ℤ) : ℤ := Int.tdiv (d * sr) 1000000000

/-- `Player.Seek`: a no-op without a streamer; otherwise convert the
current sample position to a duration, add the delta, convert back to
samples, clamp below at 0 and above at `len - 1`, and seek the streamer
there. -/
def PlayerState.seek (p : PlayerState) (d : ℤ) : PlayerState :=
  match p.streamer with
  | none => p
  | some st =>
    let curDur := srD p.formatSR st.pos
    let n0 := srN p.formatSR (curDur + d)
    let n1 := if n0 < 0 then 0 else n0
    let n2 := if n1 ≥ st.len then st.len - 1 else n1
    { p with streamer := some { st with pos := n2 } }

/-- `Player.Position`: 0 without a streamer, else the duration of the
streamer position. -/
def PlayerState.position (p : PlayerState) : ℤ :=
  match p.streamer with
  | none => 0
  | some st => srD p.formatSR st.pos

/-- `Player.Duration`: 0 without a streamer, else the duration of the
streamer length. -/
def PlayerState.duration (p : PlayerState) : ℤ :=
  match p.streamer with
  | none => 0
  | some st => srD p.formatSR st.len

/-- `Player.SetEQBand`: band indices outside `[0, 9]` are a no-op; in-range
gains are clamped to `[-12, +12]` (Go `max(min(dB, 12), -12)`). -/
def PlayerState.setEQBand (p : PlayerState) (band : ℤ) (dB : ℝ) :
    PlayerState :=
  if h : band < 0 ∨ 10 ≤ band then p
  else
    { p with eqBands := (Function.update p.eqBands ⟨band.toNat, by omega⟩
        (max (min dB 12) (-12))) }

/-- `Player.EQBands`: a copy of all ten band gains. -/
def PlayerState.EQBands (p : PlayerState) : Fin 10 → ℝ := p.eqBands

/-- A prior player state that is playing a loaded 100-sample track. -/
def priorPlaying : PlayerState :=
  { sr := 44100
    streamer := some { pos := 7, len := 100 }
    formatSR := 44100
    fileOpen := true
    ctrl := true
    tap := some (newTap 4096)
    volume := 0
    eqBands := fun _ => 0
    playing := true
    paused := false
    trackDone := false }

/-- A source whose `os.Open` fails. -/
def badSource : Source := { openOk := false, decoded := none }

/-- Counterexample to C1 as stated: calling `Play` on a failing source from
a playing state does not leave the pipeline in its prior state — `Play`
stops the old pipeline before attempting to open the source, so the prior
streamer is released and the player is no longer playing. -/
theorem claim_C1_counterexample :
    (priorPlaying.play badSource).1.streamer ≠ priorPlaying.streamer ∧
    (priorPlaying.play badSource).1.playing ≠ priorPlaying.playing := by
  constructor
  · intro h
    simp [priorPlaying, badSource, PlayerState.play, PlayerState.stop] at h
  · intro h
    simp [priorPlaying, badSource, PlayerState.play, PlayerState.stop] at h

/-- C1 (amended): when `load` (`Player.Play`) fails because the source
cannot be opened or decoded, the player is left in the stopped state — the
previous pipeline is fully released, because `Play` stops it before the
open — and construction is all-or-nothing: after a failed call no streamer,
tap or ctrl stage exists, so no partially-constructed stage is reachable by
the audio callback. -/
theorem claim_C1_failed_load (p : PlayerState) (src : Source)
    (e : PlayError) (h : (p.play src).2 = some e) :
    (p.play src).1 = p.stop ∧ (p.play src).1.streamer = none ∧
    (p.play src).1.tap = none ∧ (p.play src).1.ctrl = false ∧
    (p.play src).1.playing = false := by
  unfold PlayerState.play at h ⊢
  by_cases ho : src.openOk = false
  · rw [if_pos ho]
    exact ⟨rfl, rfl, rfl, rfl, rfl⟩
  · cases hd : src.decoded with
    | none =>
      rw [if_neg ho]
      exact ⟨rfl, rfl, rfl, rfl, rfl⟩
    | some fmt =>
      exfalso
      rw [if_neg ho, hd] at h
      exact Option.noConfusion h

/-- Witness for C1 at a concrete failing load: the source cannot be opened,
the call errors, and the resulting state is exactly the stopped state. -/
theorem claim_C1_witness :
    (priorPlaying.play badSource).2 = some PlayError.openErr ∧
    (priorPlaying.play badSource).1 = priorPlaying.stop ∧
    (priorPlaying.play badSource).1.tap = none := by
  have h : (priorPlaying.play badSource).2 = some PlayError.openErr := rfl
  have hmain := claim_C1_failed_load priorPlaying badSource PlayError.openErr h
  exact ⟨h, hmain.1, hmain.2.2.1⟩

/-- The player state right after loading a 10-second, 441000-sample track
at 44100 Hz (streamer at sample 0). -/
def tenSecondPlayer : PlayerState :=
  { sr := 44100
    streamer := some { pos := 0, len := 441000 }
    formatSR := 44100
    fileOpen := true
    ctrl := true
    tap := some (newTap 4096)
    volume := 0
    eqBands := fun _ => 0
    playing := true
    paused := false
    trackDone := false }

/-- Counterexample to C2 as stated: seeking +15 s in the 10-second track
clamps the streamer to its last sample, `441000 - 1 = 440999`, whose time
is 9999977324 ns — just under 10 s — so `position()` does not return 10 s
(10000000000 ns). -/
theorem claim_C2_counterexample :
    (tenSecondPlayer.seek 15000000000).position ≠ 10000000000 := by
  decide

/-- C2 (amended): for every loaded track with at least one sample and every
seek delta, `Seek` clamps the target sample into `[0, len - 1]`: the
resulting position is never negative and always strictly before the track
end.  In the 10-second scenario the +15 s seek lands on the last sample,
whose reported position is 9999977324 ns — the end of the track minus one
sample — not 10 s exactly. -/
theorem claim_C2_seek_clamps (p : PlayerState) (st : MP3Streamer) (d : ℤ)
    (hs : p.streamer = some st) (hlen : 1 ≤ st.len) :
    ∃ st2, (p.seek d).streamer = some st2 ∧ 0 ≤ st2.pos ∧
      st2.pos < st.len := by
  unfold PlayerState.seek
  rw [hs]
  refine ⟨_, rfl, ?_, ?_⟩ <;>
  · dsimp only
    split_ifs <;> omega

/-- Witness for C2 at the 10-second scenario: after seeking +15 s the
streamer sample position is in `[0, 441000)`. -/
theorem claim_C2_witness :
    ∃ st2, (tenSecondPlayer.seek 15000000000).streamer = some st2 ∧
      0 ≤ st2.pos ∧ st2.pos < 441000 :=
  claim_C2_seek_clamps tenSecondPlayer { pos := 0, len := 441000 }
    15000000000 rfl (by norm_num)

/-- C8: `setEqBand(i, x)` followed by reading band `i` yields
`clamp(x, -12, 12)` for every `i ∈ [0, 9]` and every real `x`; for `i`
outside `[0, 9]` the call leaves all band gains unchanged (no-op). -/
theorem claim_C8_set_eq_band (p : PlayerState) (i : ℤ) (x : ℝ) :
    (∀ (h0 : 0 ≤ i) (h9 : i < 10),
      (p.setEQBand i x).EQBands ⟨i.toNat, by omega⟩ = max (min x 12) (-12)) ∧
    ((i < 0 ∨ 10 ≤ i) → (p.setEQBand i x).EQBands = p.EQBands) := by
  constructor
  · intro h0 h9
    unfold PlayerState.setEQBand PlayerState.EQBands
    rw [dif_neg (by omega)]
    exact Function.update_same _ _ _
  · intro h
    unfold PlayerState.setEQBand PlayerState.EQBands
    rw [dif_pos h]

/-- Witness for C8 at concrete inputs: setting band 3 to 100 dB stores the
clamped value 12 dB; setting band 99 leaves the gains unchanged. -/
theorem claim_C8_witness :
    ((newPlayer 44100).setEQBand 3 100).EQBands ⟨3, by norm_num⟩ = 12 ∧
    ((newPlayer 44100).setEQBand 99 100).EQBands
      = (newPlayer 44100).EQBands := by
  constructor
  · have h1 := (claim_C8_set_eq_band (newPlayer 44100) 3 100).1
      (by norm_num) (by norm_num)
    have h2 : max (min (100 : ℝ) 12) (-12) = 12 := by norm_num
    exact h1.trans h2
  · exact (claim_C8_set_eq_band (newPlayer 44100) 99 100).2 (by norm_num)

/-! ## SpectrumAnalyzer (`ui.Visualizer`)

`Analyze` on empty input decays the previous band levels by 0.8; otherwise
it zero-pads the input into a 2048-point buffer, applies a Hann window,
runs a real-valued FFT (the external go-dsp library, modelled below as the
standard DFT), aggregates bin magnitudes into ten bands, converts to a
normalized dB-like scale clamped to [0, 1], and applies asymmetric
fast-attack/slow-decay smoothing against the previous frame.  The Go
struct also carries a reusable scratch buffer `buf`; it is cleared and
fully overwritten on every call, so it is modelled as the derived value
`windowedBuf` rather than as state. -/

/-- The FFT window size (`fftSize = 2048`). -/
def fftSize : ℕ := 2048

/-- The eleven spectrum band edges in Hz (`bandEdges`). -/
def bandEdges : Fin 11 → ℝ :=
  ![20, 100, 200, 400, 800, 1600, 3200, 6400, 12800, 16000, 20000]

/-- Go conversion `int(x)` from `float64`: truncation toward zero. -/
noncomputable def goInt (x : ℝ) : ℤ := if 0 ≤ x then ⌊x⌋ else ⌈x⌉

structure Visualizer where
  prev : Fin 10 → ℝ
  sr : ℝ

/-- `NewVisualizer`: zero smoothing state at the given sample rate. -/
def newVisualizer (sampleRate : ℝ) : Visualizer :=
  { prev := fun _ => 0, sr := sampleRate }

/-- The zero-fill-and-copy step `clear(v.buf); copy(v.buf, samples)`: index
`i` of the scratch buffer holds `samples[i]` for `i < min(len(samples),
fftSize)` and 0 beyond. -/
def padded (samples : List ℝ) (i : ℕ) : ℝ := (samples.take fftSize).getD i 0

/-- The Hann window coefficient `0.5*(1-cos(2*pi*i/(fftSize-1)))`. -/
noncomputable def hannCoeff (i : ℕ) : ℝ :=
  0.5 * (1 - Real.cos (2 * Real.pi * i / ((fftSize - 1 : ℕ) : ℝ)))

/-- The windowed FFT input buffer (`v.buf[i] *= w`). -/
noncomputable def windowedBuf (samples : List ℝ) (i : ℕ) : ℝ :=
  padded samples i * hannCoeff i

/-- Modelled from the spec: the external real-valued frequency transform
(go-dsp `fft.FFTReal`, not part of this repository) as the standard
discrete Fourier transform; it returns `fftSize` complex bins for the
`fftSize`-point input buffer. -/
noncomputable def dft (buf : ℕ → ℝ) (k : ℕ) : ℂ :=
  ∑ j ∈ Finset.range fftSize,
    (buf j : ℂ) * Complex.exp (-2 * (Real.pi : ℂ) * Complex.I * j * k / fftSize)

/-- The bin magnitude `cmplx.Abs(spectrum[k])`. -/
noncomputable def dftAbs (buf : ℕ → ℝ) (k : ℕ) : ℝ := Complex.abs (dft buf k)

/-- `halfLen := len(spectrum) / 2 = 1024`. -/
def halfLen : ℕ := fftSize / 2

/-- Lower bin index of band `b`: `int(bandEdges[b]/binHz)` with
`binHz = sr/fftSize`, clamped up to 1 to exclude the DC bin. -/
noncomputable def bandLo (sr : ℝ) (b : Fin 10) : ℤ :=
  let idx := goInt (bandEdges b.castSucc / (sr / (fftSize : ℝ)))
  if idx < 1 then 1 else idx

/-- Upper bin index of band `b`: `int(bandEdges[b+1]/binHz)`, clamped down
to `halfLen - 1` to stay below the Nyquist bin. -/
noncomputable def bandHi (sr : ℝ) (b : Fin 10) : ℤ :=
  let idx := goInt (bandEdges b.succ / (sr / (fftSize : ℝ)))
  if (halfLen : ℤ) ≤ idx then (halfLen : ℤ) - 1 else idx

/-- The pre-smoothing level of band `b`: the mean bin magnitude over
`[lo, hi]` (the sum if the range is empty), mapped through
`(20*log10(mean)+10)/50` when positive, then clamped to `[0, 1]`. -/
noncomputable def bandRaw (mag : ℕ → ℝ) (sr : ℝ) (b : Fin 10) : ℝ :=
  let lo := bandLo sr b
  let hi := bandHi sr b
  let count := (Finset.Icc lo hi).card
  let s := ∑ i ∈ Finset.Icc lo hi, mag i.toNat
  let s2 := if 0 < count then s / (count : ℝ) else s
  let v := if 0 < s2 then (20 * Real.logb 10 s2 + 10) / 50 else 0
  max 0 (min 1 v)

/-- Asymmetric temporal smoothing: fast attack (60% new / 40% old) when the
new value exceeds the previous, slow decay (25% new / 75% old) otherwise. -/
noncomputable def smooth (prev new : ℝ) : ℝ :=
  if new > prev then new * 0.6 + prev * 0.4 else new * 0.25 + prev * 0.75

/-- `Visualizer.Analyze`: decay by 0.8 on empty input; otherwise window the
zero-padded input, transform, aggregate into bands, clamp, smooth, and
store the result as the new previous frame. -/
noncomputable def Visualizer.analyze (v : Visualizer) (samples : List ℝ) :
    (Fin 10 → ℝ) × Visualizer :=
  if samples.length = 0 then
    let bands := fun b => v.prev b * 0.8
    (bands, { v with prev := bands })
  else
    let mag := dftAbs (windowedBuf samples)
    let bands := fun b => smooth (v.prev b) (bandRaw mag v.sr b)
    (bands, { v with prev := bands })

/-- The outputs and successive states of a sequence of `Analyze` calls. -/
noncomputable def analyzeTrace (v : Visualizer) :
    List (List ℝ) → List ((Fin 10 → ℝ) × Visualizer)
  | [] => []
  | s :: rest =>
    let r := v.analyze s
    r :: analyzeTrace r.2 rest

/-- C7: for every prior smoothing state, an `Analyze` call on an empty
input multiplies every band's previous value by exactly 0.8, returns the
decayed values, and stores them as the new previous frame. -/
theorem claim_C7_empty_decay (v : Visualizer) (b : Fin 10) :
    (v.analyze []).1 b = v.prev b * 0.8 ∧
    (v.analyze []).2.prev b = v.prev b * 0.8 := by
  constructor <;> simp [Visualizer.analyze]

theorem dftAbs_zero_buf (buf : ℕ → ℝ) (h : ∀ i, buf i = 0) (k : ℕ) :
    dftAbs buf k = 0 := by
  unfold dftAbs dft
  rw [Finset.sum_eq_zero]
  · simp
  · intro j hj
    rw [h j]
    simp

theorem windowedBuf_zero (samples : List ℝ) (h : ∀ x ∈ samples, x = 0)
    (i : ℕ) : windowedBuf samples i = 0 := by
  unfold windowedBuf padded
  rcases h2 : (samples.take fftSize)[i]? with _ | x
  · rw [List.getD_eq_getElem?_getD, h2]
    simp
  · have hx : x ∈ samples :=
      List.take_subset _ _ (List.getElem?_mem h2)
    rw [List.getD_eq_getElem?_getD, h2, h x hx]
    simp

theorem bandRaw_zero (mag : ℕ → ℝ) (sr : ℝ) (b : Fin 10)
    (h : ∀ i, mag i = 0) : bandRaw mag sr b = 0 := by
  simp only [bandRaw]
  rw [Finset.sum_eq_zero (fun i _ => h i.toNat)]
  simp only [zero_div, ite_self]
  rw [if_neg (lt_irrefl (0 : ℝ)), min_eq_right (by norm_num : (0 : ℝ) ≤ 1),
    max_self]

theorem bandRaw_bounds (mag : ℕ → ℝ) (sr : ℝ) (b : Fin 10) :
    0 ≤ bandRaw mag sr b ∧ bandRaw mag sr b ≤ 1 := by
  unfold bandRaw
  exact ⟨le_max_left 0 _, max_le zero_le_one (min_le_left 1 _)⟩

theorem smooth_bounds (p x : ℝ) (hp0 : 0 ≤ p) (hp1 : p ≤ 1) (hx0 : 0 ≤ x)
    (hx1 : x ≤ 1) : 0 ≤ smooth p x ∧ smooth p x ≤ 1 := by
  unfold smooth
  split_ifs <;> constructor <;> nlinarith

/-- The returned band levels are exactly the stored new previous frame. -/
theorem analyze_prev_eq (v : Visualizer) (samples : List ℝ) :
    (v.analyze samples).2.prev = (v.analyze samples).1 := by
  unfold Visualizer.analyze
  split <;> rfl

/-- One `Analyze` call on a non-empty all-zero input takes the slow-decay
smoothing branch on every band with nonnegative previous value: the result
is 0.75 times the previous value. -/
theorem analyze_zero_input (v : Visualizer) (samples : List ℝ)
    (hne : samples ≠ []) (hz : ∀ x ∈ samples, x = 0) (b : Fin 10)
    (hp : 0 ≤ v.prev b) :
    (v.analyze samples).1 b = 0.75 * v.prev b ∧
    (v.analyze samples).2.prev b = 0.75 * v.prev b := by
  have hlen : ¬samples.length = 0 := by
    simpa [List.length_eq_zero] using hne
  have hraw : bandRaw (dftAbs (windowedBuf samples)) v.sr b = 0 :=
    bandRaw_zero _ _ _ (fun i => dftAbs_zero_buf _ (windowedBuf_zero samples hz) i)
  have hsm : smooth (v.prev b) 0 = 0.75 * v.prev b := by
    unfold smooth
    rw [if_neg (not_lt.mpr hp)]
    ring
  unfold Visualizer.analyze
  rw [if_neg hlen]
  constructor
  · dsimp only
    rw [hraw, hsm]
  · dsimp only
    rw [hraw, hsm]

/-- Counterexample to C3 as stated: starting from the prior smoothing state
with every band at 1, two consecutive `Analyze` calls on a non-empty
all-zero input return 0.5625 for band 0, not 0 — the slow-decay smoothing
branch blends 75% of the previous value into each result. -/
theorem claim_C3_counterexample :
    ((({ prev := fun _ => 1, sr := 44100 } : Visualizer).analyze
        (List.replicate 2048 0)).2.analyze (List.replicate 2048 0)).1 0 ≠ 0 := by
  have hne : (List.replicate 2048 (0 : ℝ)) ≠ [] :=
    List.ne_nil_of_length_pos (by rw [List.length_replicate]; norm_num)
  have hz : ∀ x ∈ List.replicate 2048 (0 : ℝ), x = 0 :=
    fun x hx => List.eq_of_mem_replicate hx
  have h1 := analyze_zero_input ({ prev := fun _ => 1, sr := 44100 } : Visualizer)
    (List.replicate 2048 0) hne hz 0 (by norm_num)
  have hp2 : (0 : ℝ) ≤ (({ prev := fun _ => 1, sr := 44100 } : Visualizer).analyze
      (List.replicate 2048 0)).2.prev 0 := by
    rw [h1.2]
    norm_num
  have h2 := analyze_zero_input (({ prev := fun _ => 1, sr := 44100 } : Visualizer).analyze
      (List.replicate 2048 0)).2 (List.replicate 2048 0) hne hz 0 hp2
  rw [h2.1, h1.2]
  norm_num

/-- C3 (amended): for every prior smoothing state with nonnegative band
values (all reachable states qualify), two consecutive `Analyze` calls on
non-empty all-zero inputs return `0.5625 = 0.75^2` times each band's prior
value — the slow-decay path multiplies by 0.75 per call — so the result is
0 for all bands exactly when the prior state is already 0 (for example the
initial analyzer state). -/
theorem claim_C3_two_zero_calls (v : Visualizer) (s1 s2 : List ℝ)
    (h1ne : s1 ≠ []) (h1z : ∀ x ∈ s1, x = 0)
    (h2ne : s2 ≠ []) (h2z : ∀ x ∈ s2, x = 0)
    (hp : ∀ b, 0 ≤ v.prev b) (b : Fin 10) :
    ((v.analyze s1).2.analyze s2).1 b = 0.5625 * v.prev b := by
  have h1 := analyze_zero_input v s1 h1ne h1z b (hp b)
  have hp2 : 0 ≤ (v.analyze s1).2.prev b := by
    rw [h1.2]
    nlinarith [hp b]
  have h2 := analyze_zero_input (v.analyze s1).2 s2 h2ne h2z b hp2
  rw [h2.1, h1.2]
  ring

/-- Witness for C3 (amended) at a concrete input: from the fresh analyzer
(previous frame all zero), two `Analyze` calls on `[0]` return 0. -/
theorem claim_C3_witness :
    (((newVisualizer 44100).analyze [0]).2.analyze [0]).1 0
      = 0.5625 * (newVisualizer 44100).prev 0 :=
  claim_C3_two_zero_calls (newVisualizer 44100) [0] [0]
    (by simp) (by simp) (by simp) (by simp)
    (fun b => le_refl 0) 0

/-- Preservation: one `Analyze` call from a state whose previous value for
band `b` is in [0, 1] returns a band level in [0, 1] (the stored value
equals the returned one). -/
theorem analyze_preserves_unit (v : Visualizer) (samples : List ℝ)
    (b : Fin 10) (h0 : 0 ≤ v.prev b) (h1 : v.prev b ≤ 1) :
    0 ≤ (v.analyze samples).1 b ∧ (v.analyze samples).1 b ≤ 1 := by
  unfold Visualizer.analyze
  by_cases hlen : samples.length = 0
  · rw [if_pos hlen]
    constructor
    · dsimp only
      nlinarith
    · dsimp only
      nlinarith
  · rw [if_neg hlen]
    dsimp only
    have hb := bandRaw_bounds (dftAbs (windowedBuf samples)) v.sr b
    exact smooth_bounds (v.prev b) _ h0 h1 hb.1 hb.2

theorem analyzeTrace_unit (inputs : List (List ℝ)) (v : Visualizer)
    (hv : ∀ b, 0 ≤ v.prev b ∧ v.prev b ≤ 1)
    (r : (Fin 10 → ℝ) × Visualizer) (hr : r ∈ analyzeTrace v inputs)
    (b : Fin 10) :
    (0 ≤ r.1 b ∧ r.1 b ≤ 1) ∧ (0 ≤ r.2.prev b ∧ r.2.prev b ≤ 1) := by
  induction inputs generalizing v with
  | nil => simp [analyzeTrace] at hr
  | cons s rest ih =>
    simp only [analyzeTrace] at hr
    have hout : ∀ c, 0 ≤ (v.analyze s).1 c ∧ (v.analyze s).1 c ≤ 1 :=
      fun c => analyze_preserves_unit v s c (hv c).1 (hv c).2
    have hnext : ∀ c, 0 ≤ (v.analyze s).2.prev c ∧ (v.analyze s).2.prev c ≤ 1 := by
      intro c
      rw [analyze_prev_eq]
      exact hout c
    rcases List.mem_cons.mp hr with h | h
    · subst h
      exact ⟨hout b, hnext b⟩
    · exact ih (v.analyze s).2 hnext h

/-- C9: starting from the initial analyzer state, after every `Analyze`
call — on empty or non-empty input, through the clamp, the asymmetric
smoothing and the 0.8 decay path alike — every returned band level and
every stored previous-frame value lies in [0, 1]. -/
theorem claim_C9_levels_in_unit_interval (sr : ℝ) (inputs : List (List ℝ))
    (r : (Fin 10 → ℝ) × Visualizer)
    (hr : r ∈ analyzeTrace (newVisualizer sr) inputs) (b : Fin 10) :
    (0 ≤ r.1 b ∧ r.1 b ≤ 1) ∧ (0 ≤ r.2.prev b ∧ r.2.prev b ≤ 1) :=
  analyzeTrace_unit inputs (newVisualizer sr)
    (fun _ => ⟨le_refl 0, zero_le_one⟩) r hr b

/-- Witness for C9 at a concrete trace: the single call on empty input from
the fresh analyzer yields band 0 and its stored value in [0, 1]. -/
theorem claim_C9_witness :
    (0 ≤ ((newVisualizer 44100).analyze []).1 0 ∧
      ((newVisualizer 44100).analyze []).1 0 ≤ 1) ∧
    (0 ≤ ((newVisualizer 44100).analyze []).2.prev 0 ∧
      ((newVisualizer 44100).analyze []).2.prev 0 ≤ 1) :=
  claim_C9_levels_in_unit_interval 44100 [[]]
    ((newVisualizer 44100).analyze []) (by simp [analyzeTrace]) 0
